import Mathlib

set_option maxHeartbeats 1000000

/- Verification of the bmm splitter pipeline (scripts/splitter/main.go):
   encoding dispatch (convertToUTF8), BMS header extraction (ParseBMS and
   the four anchored case-insensitive line patterns), and the batched
   persistence pipeline (CLI.Run / CLI.UpsertPatterns / CLI.UpsertPattern)
   with its shared in-memory song registry and the bounded worker pool. -/

/-! ## Constants (main.go lines 33-40) -/

def maxConcurrency : Nat := 10

def upsertBatch : Nat := 1000

def bufferSize : Nat := 128 * 1024

/-! ## Encoding normalization (convertToUTF8, main.go lines 384-414)

The chardet detector and the golang.org/x/text decoders are external
libraries; the detector result is taken as an input and the decoders are
represented symbolically.  `convertToUTF8` embeds only the dispatch logic
of the source function, which is what the claims are about. -/

structure DetectResult where
  charset : String
  confidence : Nat
deriving DecidableEq

inductive DecoderKind where
  | shiftJIS
  | utf32BE
  | utf32LE
  | eucKR
deriving DecidableEq

/-- Result of `convertToUTF8`: either the input bytes returned unchanged
(the UTF-8 full-confidence case) or the input routed to one of the
decoders. Bytes are modelled as `List Nat`. -/
inductive ConvResult where
  | unchanged (b : List Nat)
  | decoded (d : DecoderKind) (b : List Nat)
deriving DecidableEq

def convertToUTF8 (input : List Nat) (res : DetectResult) : ConvResult :=
  -- `dec := japanese.ShiftJIS.NewDecoder()` is the default; the switch on
  -- res.Charset runs only when res.Confidence == 100 (main.go line 392).
  if res.confidence = 100 then
    if res.charset = "UTF-8" then ConvResult.unchanged input
    else if res.charset = "UTF-32BE" then ConvResult.decoded DecoderKind.utf32BE input
    else if res.charset = "UTF-32LE" then ConvResult.decoded DecoderKind.utf32LE input
    else if res.charset = "EUC-KR" then ConvResult.decoded DecoderKind.eucKR input
    else ConvResult.decoded DecoderKind.shiftJIS input
  else ConvResult.decoded DecoderKind.shiftJIS input

/-! ## Header extraction (reBMSTitle .. reBMSSubartist, ParseBMS;
main.go lines 43-47 and 303-367)

A line produced by the bufio scanner is a `List Char`.  The four regexes
`(?i)^#title[\s\t]*(.*?)(?:\r\n|\r|\n|$)` etc. are embedded as:
case-insensitive literal prefix, then greedily drop `\s` characters
(Go `\s` is space, tab, LF, FF, CR), then capture up to the first CR or
LF (the lazy group followed by the terminator alternation), or to the end
of the line.  Case-insensitivity is modelled by ASCII `Char.toLower`,
which agrees with Go's case folding on these ASCII-only patterns (up to
the exotic fold orbits such as the long s, which no claim exercises). -/

def charCI (p c : Char) : Bool := p.toLower == c.toLower

def prefixCI : List Char → List Char → Bool
  | [], _ => true
  | _ :: _, [] => false
  | p :: ps, c :: cs => charCI p c && prefixCI ps cs

def isGoSpace (c : Char) : Bool :=
  c == ' ' || c == '\t' || c == '\n' || c == '\x0C' || c == '\r'

/-- The captured group: after the prefix, `[\s\t]*` greedily strips
whitespace, then the lazy `(.*?)(?:\r\n|\r|\n|$)` captures up to the
first CR or LF, or the end of the line. -/
def stripValue (rest : List Char) : List Char :=
  (rest.dropWhile isGoSpace).takeWhile (fun c => !(c == '\r' || c == '\n'))

/-- `FindStringSubmatch` for one of the four header regexes: `some v`
with the captured value when the line matches, else `none`. -/
def matchHeader (pat : List Char) (line : List Char) : Option (List Char) :=
  if prefixCI pat line then some (stripValue (line.drop pat.length)) else none

def titlePat : List Char := ['#', 't', 'i', 't', 'l', 'e']

def subtitlePat : List Char := ['#', 's', 'u', 'b', 't', 'i', 't', 'l', 'e']

def artistPat : List Char := ['#', 'a', 'r', 't', 'i', 's', 't']

def subartistPat : List Char := ['#', 's', 'u', 'b', 'a', 'r', 't', 'i', 's', 't']

structure Fields where
  title : List Char
  subtitle : List Char
  artist : List Char
  subartist : List Char
deriving DecidableEq

def emptyFields : Fields := ⟨[], [], [], []⟩

/-- Loop-top break test (main.go line 329). -/
def allFilled (f : Fields) : Bool :=
  !f.artist.isEmpty && !f.subartist.isEmpty && !f.title.isEmpty && !f.subtitle.isEmpty

/-- One iteration of the scan loop body (main.go lines 332-360): the four
patterns are tried in order; on a match the field is set only if still
empty, and the loop continues with the next line. -/
def processLine (f : Fields) (line : List Char) : Fields :=
  match matchHeader titlePat line with
  | some v => if f.title.isEmpty then { f with title := v } else f
  | none =>
    match matchHeader subtitlePat line with
    | some v => if f.subtitle.isEmpty then { f with subtitle := v } else f
    | none =>
      match matchHeader artistPat line with
      | some v => if f.artist.isEmpty then { f with artist := v } else f
      | none =>
        match matchHeader subartistPat line with
        | some v => if f.subartist.isEmpty then { f with subartist := v } else f
        | none => f

/-- The `for scanner.Scan()` loop (main.go lines 328-364).  `scanner.Scan`
fails with `bufio.ErrTooLong` when the next line does not fit the
128 KiB buffer (modelled as length strictly above `bufferSize`; the
scanner's exact boundary behaviour at a length of exactly `bufferSize`
is not needed by any claim); `scanner.Err()` then makes ParseBMS return
an error.  On a successful read the loop first breaks if all four fields
are already non-empty, then processes the line. -/
def scanLines (f : Fields) : List (List Char) → Except Unit Fields
  | [] => Except.ok f
  | l :: ls =>
    if bufferSize < l.length then Except.error ()
    else if allFilled f then Except.ok f
    else scanLines (processLine f l) ls

/-- ParseBMS restricted to its scanning phase: the path is passed through
and the hash is `calculateHash` of the decoded bytes, both computed before
the scan; neither affects the scan, so the model takes the decoded lines
and returns the extracted fields or the scanner error. -/
def ParseBMS (lines : List (List Char)) : Except Unit Fields :=
  scanLines emptyFields lines

/-- Specification-side field value, following the amended reading of the
extraction contract: the first match whose captured value is non-empty
wins (a match capturing the empty string stores the empty string, which
leaves the field unfilled). -/
def fv (pat : List Char) : List (List Char) → List Char
  | [] => []
  | l :: ls =>
    match matchHeader pat l with
    | some v => if v.isEmpty then fv pat ls else v
    | none => fv pat ls

/-- Modelled from the spec sentence "For each field, only the first match
wins": the captured value of the first matching line, whether or not the
capture is empty.  Used to refute the literal claim. -/
def fvFirst (pat : List Char) : List (List Char) → List Char
  | [] => []
  | l :: ls =>
    match matchHeader pat l with
    | some v => v
    | none => fvFirst pat ls

/-- Modelled from the spec's words for claim C6 ("only the first match
wins"): each field is the capture of the first matching line. -/
def extractFirstMatch (lines : List (List Char)) : Fields :=
  ⟨fvFirst titlePat lines, fvFirst subtitlePat lines,
   fvFirst artistPat lines, fvFirst subartistPat lines⟩

/-- Modelled from the claim C10 words: "the entire remainder of the line
after that literal prefix, less any immediately following spaces or tabs,
is captured as the field value". -/
def claimCapture (pat : List Char) (line : List Char) : Option (List Char) :=
  if prefixCI pat line then
    some ((line.drop pat.length).dropWhile (fun c => c == ' ' || c == '\t'))
  else none

/-! ## Store model (schema.sql, CLI.UpsertPattern, main.go lines 215-292)

Rows of the two tables.  `created_at` / `updated_at` have a
`datetime('now')` default on insert; the clock is irrelevant to control
flow and is passed in as a `Nat`. -/

structure SongRow where
  id : String
  path : String
deriving DecidableEq

structure PatternRow where
  hash : String
  title : String
  subtitle : String
  artist : String
  subartist : String
  path : String
  songId : String
  createdAt : Nat
  updatedAt : Nat
deriving DecidableEq

structure DB where
  songs : List SongRow
  patterns : List PatternRow
deriving DecidableEq

structure BMS where
  path : String
  hash : String
  title : String
  subtitle : String
  artist : String
  subartist : String
deriving DecidableEq

/-- The whole mutable state of the CLI value: the in-memory song registry
`c.songs` (path to id, newest entry first; entries are only ever added on
a miss), the shared buffer `c.bmsList`, the database, and the state of
the uuid supply. -/
structure CLIState where
  songs : List (String × String)
  bmsList : List BMS
  db : DB
  nextId : Nat
deriving DecidableEq

/-- Go map read `c.songs[path]`. -/
def mlookup : List (String × String) → String → Option String
  | [], _ => none
  | (k, v) :: rest, key => if k = key then some v else mlookup rest key

/-- `uuid.NewRandom` modelled as a deterministic fresh-id supply; no claim
depends on the distribution, only on the registry discipline. -/
def genId (n : Nat) : String := "uuid-" ++ toString n

/-- `filepath.Dir` for already-clean paths: everything before the last
slash, `"."` when there is no slash, `"/"` for a root-level entry. -/
def dirOf (p : String) : String :=
  match p.data.reverse.dropWhile (fun c => !(c == '/')) with
  | [] => "."
  | _ :: rest => if rest.isEmpty then "/" else String.mk rest.reverse

/-- The `ON CONFLICT(hash) DO UPDATE SET` column list (main.go
lines 229-238): non-key columns only. -/
def overwriteRow (r q : PatternRow) : PatternRow :=
  { q with title := r.title, subtitle := r.subtitle, artist := r.artist,
           subartist := r.subartist, path := r.path, songId := r.songId }

/-- The pattern upsert statement: insert the row (timestamp defaults
applied) when the hash is new, otherwise overwrite the non-key columns of
the row(s) with that hash. -/
def upsertPatternRow (now : Nat) (r : PatternRow) (rows : List PatternRow) :
    List PatternRow :=
  if rows.any (fun q => q.hash == r.hash) then
    rows.map (fun q => if q.hash == r.hash then overwriteRow r q else q)
  else rows ++ [{ r with createdAt := now, updatedAt := now }]

/-- The values bound by `stmt1.ExecContext` (main.go line 267). -/
def mkRow (bms : BMS) (sid : String) : PatternRow :=
  { hash := bms.hash, title := bms.title, subtitle := bms.subtitle,
    artist := bms.artist, subartist := bms.subartist, path := bms.path,
    songId := sid, createdAt := 0, updatedAt := 0 }

/-- The points at which a flush can fail (main.go lines 219-275):
transaction begin, the two statement prepares, uuid generation, the two
statement executions (per record index), and the commit. -/
inductive FailPoint where
  | beginTx
  | prepareUpsert
  | prepareInsert (i : Nat)
  | genUUID (i : Nat)
  | execInsert (i : Nat)
  | execUpsert (i : Nat)
  | commitTx
deriving DecidableEq

/-- Result of the loop over `c.bmsList` inside the transaction: the
in-memory registry (which survives a rollback), the transaction-local
view of the database, the uuid supply state, and whether a statement
failed (in which case the caller rolls back). -/
structure TxRes where
  songs : List (String × String)
  txdb : DB
  nextId : Nat
  failed : Bool
deriving DecidableEq

/-- The `for _, bms := range c.bmsList` loop of CLI.UpsertPattern
(main.go lines 244-271).  On a registry miss a song row is inserted and
the new id is put into the in-memory map only after the insert statement
executes (lines 259-265); the pattern upsert then runs with the resolved
id.  A failure at the designated fail point stops the loop; the map
mutations made so far are kept (Go does not undo them), while the
transaction-local rows are discarded by the caller. -/
def flushLoop (now : Nat) (fp : Option FailPoint) :
    List BMS → Nat → List (String × String) → DB → Nat → TxRes
  | [], _, songs, txdb, nextId => ⟨songs, txdb, nextId, false⟩
  | bms :: rest, i, songs, txdb, nextId =>
    match mlookup songs (dirOf bms.path) with
    | some sid =>
      if fp = some (FailPoint.execUpsert i) then ⟨songs, txdb, nextId, true⟩
      else
        flushLoop now fp rest (i + 1) songs
          { txdb with patterns := upsertPatternRow now (mkRow bms sid) txdb.patterns }
          nextId
    | none =>
      if fp = some (FailPoint.prepareInsert i) then ⟨songs, txdb, nextId, true⟩
      else if fp = some (FailPoint.genUUID i) then ⟨songs, txdb, nextId, true⟩
      else if fp = some (FailPoint.execInsert i) then ⟨songs, txdb, nextId + 1, true⟩
      else if fp = some (FailPoint.execUpsert i) then
        ⟨(dirOf bms.path, genId nextId) :: songs,
         { txdb with songs := txdb.songs ++ [⟨genId nextId, dirOf bms.path⟩] },
         nextId + 1, true⟩
      else
        flushLoop now fp rest (i + 1) ((dirOf bms.path, genId nextId) :: songs)
          { songs := txdb.songs ++ [⟨genId nextId, dirOf bms.path⟩],
            patterns := upsertPatternRow now (mkRow bms (genId nextId)) txdb.patterns }
          (nextId + 1)

/-- CLI.UpsertPattern (main.go lines 215-280), the serialized flush: runs
under `c.upsertMutex`, so flushes are modelled as atomic steps.  Returns
the new state and whether an error was surfaced.  On any failure the
deferred `tx.Rollback()` discards the transaction-local database changes,
the buffer is kept, and the error is returned; `c.ResetBMSList()` runs
only after a successful commit. -/
def upsertPattern (now : Nat) (s : CLIState) (fp : Option FailPoint) :
    CLIState × Bool :=
  if fp = some FailPoint.beginTx then (s, true)
  else if fp = some FailPoint.prepareUpsert then (s, true)
  else if (flushLoop now fp s.bmsList 0 s.songs s.db s.nextId).failed then
    ({ s with songs := (flushLoop now fp s.bmsList 0 s.songs s.db s.nextId).songs,
              nextId := (flushLoop now fp s.bmsList 0 s.songs s.db s.nextId).nextId },
     true)
  else if fp = some FailPoint.commitTx then
    ({ s with songs := (flushLoop now fp s.bmsList 0 s.songs s.db s.nextId).songs,
              nextId := (flushLoop now fp s.bmsList 0 s.songs s.db s.nextId).nextId },
     true)
  else
    ({ s with songs := (flushLoop now fp s.bmsList 0 s.songs s.db s.nextId).songs,
              nextId := (flushLoop now fp s.bmsList 0 s.songs s.db s.nextId).nextId,
              db := (flushLoop now fp s.bmsList 0 s.songs s.db s.nextId).txdb,
              bmsList := [] },
     false)

/-- CLI.UpsertPatterns (main.go lines 202-213) after a successful parse:
append the record to the shared buffer; flush only when the buffer has
reached `upsertBatch` records. -/
def upsertPatterns (s : CLIState) (bms : BMS) : CLIState :=
  if (s.bmsList ++ [bms]).length < upsertBatch then
    { s with bmsList := s.bmsList ++ [bms] }
  else (upsertPattern 0 { s with bmsList := s.bmsList ++ [bms] } none).1

/-- CLI.Run (main.go lines 148-182): every accepted file is parsed and
handed to UpsertPatterns; after the walk the function only waits for the
workers — there is no trailing flush of a partially filled buffer. -/
def runPipeline (s : CLIState) (files : List BMS) : CLIState :=
  files.foldl upsertPatterns s

/-- Interleaving model for the concurrency claims: parse workers append
to the shared buffer in an arbitrary order (appends are serialized by
`c.sliceMutex`), and flushes — serialized by `c.upsertMutex` — happen at
arbitrary points with an arbitrary failure schedule.  This
over-approximates every schedule of the Go program. -/
inductive Op where
  | append (b : BMS)
  | flushOp (fp : Option FailPoint)

def applyOp (s : CLIState) : Op → CLIState
  | Op.append b => { s with bmsList := s.bmsList ++ [b] }
  | Op.flushOp fp => (upsertPattern 0 s fp).1

def runOps (s : CLIState) (ops : List Op) : CLIState :=
  ops.foldl applyOp s

/-- An operation schedule in which every flush succeeds. -/
def failFree : Op → Prop
  | Op.append _ => True
  | Op.flushOp fp => fp = none

/-- The state at program start after `ListSongs` against an empty
database. -/
def init0 : CLIState := ⟨[], [], ⟨[], []⟩, 0⟩

/-- Transaction-local form of the registry/store consistency: the
registry answers for every song row, song paths occur at most once, and
every pattern row is keyed to the registry answer for its directory. -/
def TxInv (songs : List (String × String)) (txdb : DB) : Prop :=
  (∀ row ∈ txdb.songs, mlookup songs row.path = some row.id) ∧
  (txdb.songs.map SongRow.path).Nodup ∧
  (∀ row ∈ txdb.patterns, mlookup songs (dirOf row.path) = some row.songId)

/-- Registry/store consistency maintained by the pipeline: the registry
(preloaded by ListSongs, main.go lines 184-200) answers for every
committed song row, song paths are committed at most once, and every
committed pattern row's song id is the registry's answer for its
directory. -/
def InvA (s : CLIState) : Prop :=
  TxInv s.songs s.db

/-- Strengthening of `InvA` for failure-free runs: every in-memory
registry entry is backed by a committed song row. -/
def InvB (s : CLIState) : Prop :=
  InvA s ∧
  ∀ p id, mlookup s.songs p = some id →
    ∃ row ∈ s.db.songs, row.id = id ∧ row.path = p

/-- Test input family for the batch-counting claim: files with pairwise
distinct content hashes. -/
def mkFile (i : Nat) : BMS :=
  ⟨"d/f", String.mk (List.replicate i 'h'), "", "", "", ""⟩

def cFiles (n : Nat) : List BMS :=
  (List.range n).map mkFile

/-! ## Worker pool (main.go lines 155-175)

`semaphore := make(chan struct{}, maxConcurrency)`: a send acquires a
slot and blocks while `maxConcurrency` sends are outstanding; the
deferred receive releases the slot when the task finishes, whether it
returned an error or not. -/

structure PoolState where
  inFlight : Nat
deriving DecidableEq

inductive PoolStep : PoolState → PoolState → Prop where
  | acquire (s : PoolState) :
      s.inFlight < maxConcurrency → PoolStep s ⟨s.inFlight + 1⟩
  | release (s : PoolState) (succeeded : Bool) :
      0 < s.inFlight → PoolStep s ⟨s.inFlight - 1⟩

inductive PoolReachable : PoolState → Prop where
  | init : PoolReachable ⟨0⟩
  | step {s t : PoolState} : PoolReachable s → PoolStep s t → PoolReachable t

/-! ## Theorems -/

/-! ### Claim C5: encoding dispatch -/

/-- Claim C5: with full detector confidence, UTF-8 input is returned
byte-for-byte unchanged, UTF-32BE / UTF-32LE input goes to the matching
fixed-width decoder, EUC-KR input goes to the EUC-KR decoder, and every
other label (Shift_JIS included) goes to the Shift-JIS decoder; with
confidence below 100 the input goes to the Shift-JIS decoder regardless
of the label. -/
theorem claim5_encoding_dispatch (input : List Nat) (res : DetectResult) :
    (res.confidence = 100 → res.charset = "UTF-8" →
        convertToUTF8 input res = ConvResult.unchanged input) ∧
    (res.confidence = 100 → res.charset = "UTF-32BE" →
        convertToUTF8 input res = ConvResult.decoded DecoderKind.utf32BE input) ∧
    (res.confidence = 100 → res.charset = "UTF-32LE" →
        convertToUTF8 input res = ConvResult.decoded DecoderKind.utf32LE input) ∧
    (res.confidence = 100 → res.charset = "EUC-KR" →
        convertToUTF8 input res = ConvResult.decoded DecoderKind.eucKR input) ∧
    (res.confidence = 100 →
        res.charset ∉ (["UTF-8", "UTF-32BE", "UTF-32LE", "EUC-KR"] : List String) →
        convertToUTF8 input res = ConvResult.decoded DecoderKind.shiftJIS input) ∧
    (res.confidence < 100 →
        convertToUTF8 input res = ConvResult.decoded DecoderKind.shiftJIS input) := by
  refine ⟨fun h1 h2 => ?_, fun h1 h2 => ?_, fun h1 h2 => ?_, fun h1 h2 => ?_,
    fun h1 h2 => ?_, fun h1 => ?_⟩
  · simp [convertToUTF8, h1, h2]
  · simp [convertToUTF8, h1, h2]
  · simp [convertToUTF8, h1, h2]
  · simp [convertToUTF8, h1, h2]
  · simp only [List.mem_cons, List.not_mem_nil, or_false] at h2
    push_neg at h2
    obtain ⟨n1, n2, n3, n4⟩ := h2
    simp [convertToUTF8, h1, n1, n2, n3, n4]
  · have hne : res.confidence ≠ 100 := by omega
    simp [convertToUTF8, hne]

/-- Closed instance of claim C5 discharging each hypothesis. -/
theorem claim5_witness :
    convertToUTF8 [1, 2] ⟨"UTF-8", 100⟩ = ConvResult.unchanged [1, 2] ∧
    convertToUTF8 [1] ⟨"UTF-32BE", 100⟩ = ConvResult.decoded DecoderKind.utf32BE [1] ∧
    convertToUTF8 [1] ⟨"UTF-32LE", 100⟩ = ConvResult.decoded DecoderKind.utf32LE [1] ∧
    convertToUTF8 [1] ⟨"EUC-KR", 100⟩ = ConvResult.decoded DecoderKind.eucKR [1] ∧
    convertToUTF8 [1] ⟨"Shift_JIS", 100⟩ = ConvResult.decoded DecoderKind.shiftJIS [1] ∧
    convertToUTF8 [1] ⟨"UTF-8", 50⟩ = ConvResult.decoded DecoderKind.shiftJIS [1] :=
  ⟨(claim5_encoding_dispatch [1, 2] ⟨"UTF-8", 100⟩).1 rfl rfl,
   (claim5_encoding_dispatch [1] ⟨"UTF-32BE", 100⟩).2.1 rfl rfl,
   (claim5_encoding_dispatch [1] ⟨"UTF-32LE", 100⟩).2.2.1 rfl rfl,
   (claim5_encoding_dispatch [1] ⟨"EUC-KR", 100⟩).2.2.2.1 rfl rfl,
   (claim5_encoding_dispatch [1] ⟨"Shift_JIS", 100⟩).2.2.2.2.1 rfl (by decide),
   (claim5_encoding_dispatch [1] ⟨"UTF-8", 50⟩).2.2.2.2.2 (by decide)⟩

/-! ### Claim C8: bounded worker pool -/

/-- Claim C8: in every reachable state of the worker pool the number of
in-flight parse tasks never exceeds `maxConcurrency` (10); a slot is
acquired before a task starts and released on completion whether the
task succeeded or failed. -/
theorem claim8_pool_bound {s : PoolState} (h : PoolReachable s) :
    s.inFlight ≤ maxConcurrency := by
  induction h with
  | init => simp [maxConcurrency]
  | step hr hstep ih =>
    cases hstep with
    | acquire hlt => exact hlt
    | release b hpos =>
      show _ - 1 ≤ maxConcurrency
      omega

/-- Closed instance of claim C8: a state with two in-flight tasks (one
acquire for each of two files, one later released after a failure) is
reachable and within the bound. -/
theorem claim8_witness :
    PoolReachable ⟨2⟩ ∧ (⟨2⟩ : PoolState).inFlight ≤ maxConcurrency := by
  have h1 : PoolStep ⟨0⟩ ⟨1⟩ := PoolStep.acquire ⟨0⟩ (by decide)
  have h2 : PoolStep ⟨1⟩ ⟨2⟩ := PoolStep.acquire ⟨1⟩ (by decide)
  have h3 : PoolStep ⟨2⟩ ⟨3⟩ := PoolStep.acquire ⟨2⟩ (by decide)
  have h4 : PoolStep ⟨3⟩ ⟨2⟩ := PoolStep.release ⟨3⟩ false (by decide)
  have hr : PoolReachable ⟨2⟩ :=
    PoolReachable.step
      (PoolReachable.step
        (PoolReachable.step (PoolReachable.step PoolReachable.init h1) h2) h3) h4
  exact ⟨hr, claim8_pool_bound hr⟩

/-! ### Claim C4: failed flush rolls back and keeps the buffer -/

/-- Claim C4: whichever step of a flush fails (begin, prepare, uuid
generation, execution, commit), the transaction is rolled back (the
database is unchanged), the error is surfaced, and the shared buffer is
not cleared; the buffer is truncated to empty exactly when the commit
succeeded. -/
theorem claim4_flush_failure_rollback (now : Nat) (s : CLIState) (fp : Option FailPoint) :
    ((upsertPattern now s fp).2 = true →
        (upsertPattern now s fp).1.db = s.db ∧
        (upsertPattern now s fp).1.bmsList = s.bmsList) ∧
    ((upsertPattern now s fp).2 = false → (upsertPattern now s fp).1.bmsList = []) ∧
    (fp = some FailPoint.beginTx → (upsertPattern now s fp).2 = true) ∧
    (fp = some FailPoint.commitTx → (upsertPattern now s fp).2 = true) := by
  by_cases hb : fp = some FailPoint.beginTx
  · simp [upsertPattern, hb]
  · by_cases hp : fp = some FailPoint.prepareUpsert
    · simp [upsertPattern, hb, hp]
    · by_cases hf : (flushLoop now fp s.bmsList 0 s.songs s.db s.nextId).failed
      · simp [upsertPattern, hb, hp, hf]
      · by_cases hc : fp = some FailPoint.commitTx
        · simp [upsertPattern, hb, hp, hf, hc]
        · simp [upsertPattern, hb, hp, hf, hc]

/-- Closed instance of claim C4: a flush of a one-record buffer that
fails at commit keeps the database and the buffer; the same flush with
no failure empties the buffer. -/
theorem claim4_witness :
    (upsertPattern 0 ⟨[], [⟨"d/f", "h1", "", "", "", ""⟩], ⟨[], []⟩, 0⟩
        (some FailPoint.commitTx)).1.db = (⟨[], []⟩ : DB) ∧
    (upsertPattern 0 ⟨[], [⟨"d/f", "h1", "", "", "", ""⟩], ⟨[], []⟩, 0⟩
        (some FailPoint.commitTx)).1.bmsList = [⟨"d/f", "h1", "", "", "", ""⟩] ∧
    (upsertPattern 0 ⟨[], [⟨"d/f", "h1", "", "", "", ""⟩], ⟨[], []⟩, 0⟩
        none).1.bmsList = [] := by
  refine ⟨?_, ?_, ?_⟩
  · exact ((claim4_flush_failure_rollback 0 _ _).1 (by decide)).1
  · exact ((claim4_flush_failure_rollback 0 _ _).1 (by decide)).2
  · exact (claim4_flush_failure_rollback 0 _ _).2.1 (by decide)

/-! ### Claim C9: over-long line before the headers are complete -/

/-- If scanning a prefix of the input ends normally without filling all
four fields, scanning continues into the rest of the input. -/
theorem scanLines_append (f g : Fields) (p q : List (List Char))
    (h : scanLines f p = Except.ok g) (hg : allFilled g = false) :
    scanLines f (p ++ q) = scanLines g q := by
  induction p generalizing f with
  | nil =>
    simp only [scanLines] at h
    cases h
    rfl
  | cons l ls ih =>
    rw [List.cons_append]
    rw [scanLines] at h
    by_cases hl : bufferSize < l.length
    · rw [if_pos hl] at h
      exact Except.noConfusion h
    · rw [if_neg hl] at h
      by_cases ha : allFilled f
      · rw [if_pos ha] at h
        injection h with h2
        subst h2
        simp [ha] at hg
      · rw [if_neg ha] at h
        conv_lhs => rw [scanLines]
        rw [if_neg hl, if_neg ha]
        exact ih (processLine f l) h

/-- Claim C9: if the scanner reaches a line longer than the 131072-byte
buffer before all four metadata fields are non-empty, ParseBMS returns an
error for the file instead of a record. -/
theorem claim9_long_line_error (p rest : List (List Char)) (l : List Char) (g : Fields)
    (h : scanLines emptyFields p = Except.ok g) (hg : allFilled g = false)
    (hl : bufferSize < l.length) :
    ParseBMS (p ++ l :: rest) = Except.error () := by
  unfold ParseBMS
  rw [scanLines_append emptyFields g p (l :: rest) h hg]
  unfold scanLines
  simp [hl]

/-- Closed instance of claim C9: a file whose single line is 131073 bytes
long is rejected. -/
theorem claim9_witness :
    ParseBMS [List.replicate 131073 'a'] = Except.error () :=
  claim9_long_line_error [] [] (List.replicate 131073 'a') emptyFields rfl rfl
    (by norm_num [bufferSize])

/-! ### Claim C10: no separator required after the directive -/

/-- A case-insensitive pattern matches itself followed by anything. -/
theorem prefixCI_append_self (p s : List Char) : prefixCI p (p ++ s) = true := by
  induction p with
  | nil => rfl
  | cons c cs ih => simp [prefixCI, charCI, ih]

/-- Counterexample to claim C10 as stated: on the line `#title\x0CX` the
code strips the form feed as well (Go regexp `\s` includes it), capturing
`X`, while the claim ("the entire remainder of the line ... less any
immediately following spaces or tabs") demands `\x0CX`. -/
theorem claim10_cex :
    matchHeader titlePat ['#', 't', 'i', 't', 'l', 'e', '\x0C', 'X'] = some ['X'] ∧
    claimCapture titlePat ['#', 't', 'i', 't', 'l', 'e', '\x0C', 'X'] =
      some ['\x0C', 'X'] ∧
    (['X'] : List Char) ≠ ['\x0C', 'X'] := by
  decide

/-- Claim C10 as amended: no separator is required between a directive
and its value — for a line that begins (case-insensitively) with the
literal prefix, the remainder of the line, less immediately following
whitespace (space, tab, LF, FF, CR) and truncated at the first CR or LF,
is the captured value; thus `#titleFoo` yields title `Foo` and
`#titles X` yields title `s X`. -/
theorem claim10_no_separator :
    (∀ s : List Char, matchHeader titlePat (titlePat ++ s) = some (stripValue s)) ∧
    ParseBMS [['#', 't', 'i', 't', 'l', 'e', 'F', 'o', 'o']] =
      Except.ok ⟨['F', 'o', 'o'], [], [], []⟩ ∧
    ParseBMS [['#', 't', 'i', 't', 'l', 'e', 's', ' ', 'X']] =
      Except.ok ⟨['s', ' ', 'X'], [], [], []⟩ := by
  refine ⟨fun s => ?_, by rfl, by rfl⟩
  have hp : prefixCI titlePat (titlePat ++ s) = true := prefixCI_append_self titlePat s
  simp [matchHeader, hp, List.drop_left]

/-! ### Claim C7: idempotent content-addressed upsert -/

/-- A false boolean equation is not true. -/
theorem bool_false_not_true {b : Bool} (h : b = false) : ¬(b = true) := by
  simp [h]

/-- Mapping a function that agrees with another on the members of a list
gives the same result. -/
theorem map_ext_mem {α β : Type} (f g : α → β) (l : List α)
    (h : ∀ a ∈ l, f a = g a) : l.map f = l.map g := by
  induction l with
  | nil => rfl
  | cons a t ih =>
    simp only [List.map_cons, h a (List.mem_cons_self a t)]
    rw [ih (fun x hx => h x (List.mem_cons_of_mem a hx))]

/-- The conflict-update branch leaves rows with other hashes unchanged. -/
theorem upsert_map_id (r : PatternRow) (st : List PatternRow)
    (h : ∀ q ∈ st, (q.hash == r.hash) = false) :
    st.map (fun q => if q.hash == r.hash then overwriteRow r q else q) = st := by
  have h2 : st.map (fun q => if q.hash == r.hash then overwriteRow r q else q)
      = st.map id := by
    apply map_ext_mem
    intro a ha
    rw [if_neg (bool_false_not_true (h a ha))]
    rfl
  rw [h2, List.map_id]

/-- Filtering commutes with mapping a filter-invariant function. -/
theorem filter_map_comm {α : Type} (f : α → α) (p : α → Bool) (l : List α)
    (h : ∀ a, p (f a) = p a) :
    (l.map f).filter p = (l.filter p).map f := by
  induction l with
  | nil => rfl
  | cons a t ih =>
    cases hp : p a with
    | false =>
      rw [List.map_cons, List.filter_cons, List.filter_cons, h a, hp]
      simp only [Bool.false_eq_true, if_false]
      exact ih
    | true =>
      rw [List.map_cons, List.filter_cons, List.filter_cons, h a, hp]
      simp only [if_true, List.map_cons]
      rw [ih]

/-- With pairwise-distinct hashes and at least one row carrying the
target hash, exactly one row carries it. -/
theorem filter_hash_one (r : PatternRow) (st : List PatternRow)
    (hnd : (st.map PatternRow.hash).Nodup)
    (hAny : st.any (fun q => q.hash == r.hash) = true) :
    (st.filter (fun q => q.hash == r.hash)).length = 1 := by
  induction st with
  | nil => simp at hAny
  | cons a t ih =>
    rw [List.map_cons, List.nodup_cons] at hnd
    cases ha : (a.hash == r.hash) with
    | false =>
      have hta : t.any (fun q => q.hash == r.hash) = true := by
        rw [List.any_cons, ha] at hAny
        simpa using hAny
      rw [List.filter_cons, ha]
      simp only [Bool.false_eq_true, if_false]
      exact ih hnd.2 hta
    | true =>
      have hrt : t.filter (fun q => q.hash == r.hash) = [] := by
        rw [List.filter_eq_nil_iff]
        intro q hq hqm
        apply hnd.1
        have hqr : q.hash = r.hash := by simpa using hqm
        have har : a.hash = r.hash := by simpa using ha
        have hqa : q.hash = a.hash := by rw [hqr, har]
        rw [← hqa]
        exact List.mem_map_of_mem PatternRow.hash hq
      rw [List.filter_cons, ha]
      simp [hrt]

/-- Claim C7: the pattern upsert keyed by content hash is idempotent —
re-flushing an unchanged record leaves the same row state as flushing it
once, with exactly one row for the hash, the timestamps and the key
untouched by the conflict update, and the non-key columns set to the
latest record's values. -/
theorem claim7_upsert_idempotent (now1 now2 : Nat) (r : PatternRow) (st : List PatternRow) :
    upsertPatternRow now2 r (upsertPatternRow now1 r st) = upsertPatternRow now1 r st ∧
    ((st.map PatternRow.hash).Nodup →
      ((upsertPatternRow now1 r st).filter (fun q => q.hash == r.hash)).length = 1) ∧
    (st.any (fun q => q.hash == r.hash) = true →
      (upsertPatternRow now1 r st).map PatternRow.hash = st.map PatternRow.hash ∧
      (upsertPatternRow now1 r st).map PatternRow.createdAt = st.map PatternRow.createdAt ∧
      (upsertPatternRow now1 r st).map PatternRow.updatedAt = st.map PatternRow.updatedAt) ∧
    (∀ q ∈ upsertPatternRow now1 r st, q.hash = r.hash →
      q.title = r.title ∧ q.subtitle = r.subtitle ∧ q.artist = r.artist ∧
      q.subartist = r.subartist ∧ q.path = r.path ∧ q.songId = r.songId) := by
  have hhash : ∀ q : PatternRow,
      (if q.hash == r.hash then overwriteRow r q else q).hash = q.hash := by
    intro q
    cases h : (q.hash == r.hash) with
    | false => rfl
    | true => rfl
  have hcre : ∀ q : PatternRow,
      (if q.hash == r.hash then overwriteRow r q else q).createdAt = q.createdAt := by
    intro q
    cases h : (q.hash == r.hash) with
    | false => rfl
    | true => rfl
  have hupd : ∀ q : PatternRow,
      (if q.hash == r.hash then overwriteRow r q else q).updatedAt = q.updatedAt := by
    intro q
    cases h : (q.hash == r.hash) with
    | false => rfl
    | true => rfl
  cases hAnyE : st.any (fun q => q.hash == r.hash) with
  | false =>
    -- fresh hash: the upsert appends the new row
    have hall : ∀ q ∈ st, (q.hash == r.hash) = false := by
      intro q hq
      cases hqe : (q.hash == r.hash) with
      | false => rfl
      | true =>
        have h2 : st.any (fun q => q.hash == r.hash) = true :=
          List.any_eq_true.mpr ⟨q, hq, hqe⟩
        rw [hAnyE] at h2
        exact absurd h2 (by simp)
    have hup : upsertPatternRow now1 r st
        = st ++ [{ r with createdAt := now1, updatedAt := now1 }] := by
      rw [upsertPatternRow, if_neg (bool_false_not_true hAnyE)]
    have hrh : (({ r with createdAt := now1, updatedAt := now1 } : PatternRow).hash
        == r.hash) = true := beq_self_eq_true r.hash
    have hAny3 : (st ++ [{ r with createdAt := now1, updatedAt := now1 }]).any
        (fun q => q.hash == r.hash) = true :=
      List.any_eq_true.mpr ⟨_, List.mem_append_right st (List.mem_singleton_self _), hrh⟩
    refine ⟨?_, ?_, ?_, ?_⟩
    · rw [hup, upsertPatternRow, if_pos hAny3]
      rw [List.map_append, upsert_map_id r st hall]
      simp only [List.map_cons, List.map_nil]
      rw [if_pos hrh]
      rfl
    · intro _
      rw [hup, List.filter_append]
      have h1 : st.filter (fun q => q.hash == r.hash) = [] := by
        rw [List.filter_eq_nil_iff]
        intro q hq
        exact bool_false_not_true (hall q hq)
      rw [h1, List.filter_cons, if_pos hrh]
      rfl
    · intro h
      exact absurd h (by simp)
    · intro q hq hqr
      rw [hup] at hq
      rcases List.mem_append.mp hq with h1 | h1
      · have hne := hall q h1
        rw [beq_eq_false_iff_ne] at hne
        exact absurd hqr hne
      · rw [List.mem_singleton] at h1
        subst h1
        exact ⟨rfl, rfl, rfl, rfl, rfl, rfl⟩
  | true =>
    -- hash present: the upsert overwrites the non-key columns in place
    have hup : upsertPatternRow now1 r st
        = st.map (fun q => if q.hash == r.hash then overwriteRow r q else q) := by
      rw [upsertPatternRow, if_pos hAnyE]
    obtain ⟨w, hw, hwm⟩ := List.any_eq_true.mp hAnyE
    have hAny2 : (st.map (fun q => if q.hash == r.hash then overwriteRow r q else q)).any
        (fun q => q.hash == r.hash) = true := by
      apply List.any_eq_true.mpr
      refine ⟨if w.hash == r.hash then overwriteRow r w else w,
        List.mem_map_of_mem _ hw, ?_⟩
      rw [hhash w]
      exact hwm
    refine ⟨?_, ?_, ?_, ?_⟩
    · rw [hup, upsertPatternRow, if_pos hAny2, List.map_map]
      apply map_ext_mem
      intro a ha
      show (if ((if a.hash == r.hash then overwriteRow r a else a).hash == r.hash)
          then overwriteRow r (if a.hash == r.hash then overwriteRow r a else a)
          else (if a.hash == r.hash then overwriteRow r a else a))
        = (if a.hash == r.hash then overwriteRow r a else a)
      rw [hhash a]
      cases h : (a.hash == r.hash) with
      | false => rfl
      | true => rfl
    · intro hnd
      rw [hup, filter_map_comm _ _ _ (fun a => by rw [hhash a]), List.length_map]
      exact filter_hash_one r st hnd hAnyE
    · intro _
      rw [hup, List.map_map, List.map_map, List.map_map]
      exact ⟨map_ext_mem _ _ _ (fun a _ => hhash a),
             map_ext_mem _ _ _ (fun a _ => hcre a),
             map_ext_mem _ _ _ (fun a _ => hupd a)⟩
    · intro q hq hqr
      rw [hup] at hq
      obtain ⟨a, ha, hqa⟩ := List.mem_map.mp hq
      cases h : (a.hash == r.hash) with
      | false =>
        rw [if_neg (bool_false_not_true h)] at hqa
        subst hqa
        rw [beq_eq_false_iff_ne] at h
        exact absurd hqr h
      | true =>
        rw [if_pos h] at hqa
        subst hqa
        exact ⟨rfl, rfl, rfl, rfl, rfl, rfl⟩

/-- Closed instance of claim C7 at a concrete record and store. -/
theorem claim7_witness :
    upsertPatternRow 2 ⟨"h", "t", "s", "a", "b", "p", "id", 0, 0⟩
        (upsertPatternRow 1 ⟨"h", "t", "s", "a", "b", "p", "id", 0, 0⟩ [])
      = upsertPatternRow 1 ⟨"h", "t", "s", "a", "b", "p", "id", 0, 0⟩ [] ∧
    ((upsertPatternRow 1 (⟨"h", "t", "s", "a", "b", "p", "id", 0, 0⟩ : PatternRow) []).filter
        (fun q => q.hash == (⟨"h", "t", "s", "a", "b", "p", "id", 0, 0⟩ : PatternRow).hash)).length
      = 1 ∧
    (upsertPatternRow 1 ⟨"h", "t2", "s", "a", "b", "p", "id", 0, 0⟩
        [⟨"h", "t", "s", "a", "b", "p", "id", 7, 8⟩]).map PatternRow.createdAt
      = [7] := by
  refine ⟨(claim7_upsert_idempotent 1 2 ⟨"h", "t", "s", "a", "b", "p", "id", 0, 0⟩ []).1,
          (claim7_upsert_idempotent 1 2 ⟨"h", "t", "s", "a", "b", "p", "id", 0, 0⟩ []).2.1
            (by simp),
          ?_⟩
  have h := ((claim7_upsert_idempotent 1 2 ⟨"h", "t2", "s", "a", "b", "p", "id", 0, 0⟩
      [⟨"h", "t", "s", "a", "b", "p", "id", 7, 8⟩]).2.2.1 (by decide)).2.1
  rw [h]
  rfl

/-! ### Claim C2: at most one Song per directory path -/

/-- One-step unfolding of the flush loop. -/
theorem flushLoop_cons (now : Nat) (fp : Option FailPoint) (bms : BMS) (rest : List BMS)
    (i : Nat) (songs : List (String × String)) (txdb : DB) (nid : Nat) :
    flushLoop now fp (bms :: rest) i songs txdb nid =
      match mlookup songs (dirOf bms.path) with
      | some sid =>
        if fp = some (FailPoint.execUpsert i) then ⟨songs, txdb, nid, true⟩
        else
          flushLoop now fp rest (i + 1) songs
            { txdb with patterns := upsertPatternRow now (mkRow bms sid) txdb.patterns }
            nid
      | none =>
        if fp = some (FailPoint.prepareInsert i) then ⟨songs, txdb, nid, true⟩
        else if fp = some (FailPoint.genUUID i) then ⟨songs, txdb, nid, true⟩
        else if fp = some (FailPoint.execInsert i) then ⟨songs, txdb, nid + 1, true⟩
        else if fp = some (FailPoint.execUpsert i) then
          ⟨(dirOf bms.path, genId nid) :: songs,
           { txdb with songs := txdb.songs ++ [⟨genId nid, dirOf bms.path⟩] },
           nid + 1, true⟩
        else
          flushLoop now fp rest (i + 1) ((dirOf bms.path, genId nid) :: songs)
            { songs := txdb.songs ++ [⟨genId nid, dirOf bms.path⟩],
              patterns := upsertPatternRow now (mkRow bms (genId nid)) txdb.patterns }
            (nid + 1) := rfl

/-- A registry entry inserted on a miss does not shadow existing keys. -/
theorem mlookup_insert_stable (songs : List (String × String)) (dir sid k v : String)
    (hmiss : mlookup songs dir = none) (hk : mlookup songs k = some v) :
    mlookup ((dir, sid) :: songs) k = some v := by
  rw [mlookup]
  by_cases h : dir = k
  · subst h
    rw [hmiss] at hk
    exact absurd hk (by simp)
  · rw [if_neg h]
    exact hk

theorem mlookup_insert_self (songs : List (String × String)) (dir sid : String) :
    mlookup ((dir, sid) :: songs) dir = some sid := by
  rw [mlookup, if_pos rfl]

/-- Registry entries are never overwritten during a flush: a key that
resolves before the flush resolves to the same id afterwards, for every
failure schedule. -/
theorem flushLoop_mlookup_mono (now : Nat) (fp : Option FailPoint) (recs : List BMS)
    (i : Nat) (songs : List (String × String)) (txdb : DB) (nid : Nat)
    (k v : String) (hk : mlookup songs k = some v) :
    mlookup (flushLoop now fp recs i songs txdb nid).songs k = some v := by
  induction recs generalizing i songs txdb nid with
  | nil => exact hk
  | cons bms rest ih =>
    cases hdir : mlookup songs (dirOf bms.path) with
    | some sid =>
      rw [flushLoop_cons]
      simp only [hdir]
      by_cases hf : fp = some (FailPoint.execUpsert i)
      · rw [if_pos hf]
        exact hk
      · rw [if_neg hf]
        exact ih (i + 1) songs _ nid hk
    | none =>
      rw [flushLoop_cons]
      simp only [hdir]
      by_cases h1 : fp = some (FailPoint.prepareInsert i)
      · rw [if_pos h1]; exact hk
      rw [if_neg h1]
      by_cases h2 : fp = some (FailPoint.genUUID i)
      · rw [if_pos h2]; exact hk
      rw [if_neg h2]
      by_cases h3 : fp = some (FailPoint.execInsert i)
      · rw [if_pos h3]; exact hk
      rw [if_neg h3]
      by_cases h4 : fp = some (FailPoint.execUpsert i)
      · rw [if_pos h4]
        exact mlookup_insert_stable songs _ _ k v hdir hk
      · rw [if_neg h4]
        exact ih (i + 1) _ _ (nid + 1) (mlookup_insert_stable songs _ _ k v hdir hk)

/-- The pattern upsert keeps every row keyed to the registry answer for
its directory, provided the incoming record is. -/
theorem upsertPatternRow_keyinv (songs : List (String × String)) (now : Nat)
    (r : PatternRow) (rows : List PatternRow)
    (hrow : mlookup songs (dirOf r.path) = some r.songId)
    (hrows : ∀ q ∈ rows, mlookup songs (dirOf q.path) = some q.songId) :
    ∀ q ∈ upsertPatternRow now r rows, mlookup songs (dirOf q.path) = some q.songId := by
  intro q hq
  rw [upsertPatternRow] at hq
  by_cases hAny : (rows.any fun x => x.hash == r.hash) = true
  · rw [if_pos hAny] at hq
    obtain ⟨a, ha, hqa⟩ := List.mem_map.mp hq
    by_cases hm : (a.hash == r.hash) = true
    · rw [if_pos hm] at hqa
      subst hqa
      exact hrow
    · rw [if_neg hm] at hqa
      subst hqa
      exact hrows a ha
  · rw [if_neg hAny] at hq
    rcases List.mem_append.mp hq with h1 | h1
    · exact hrows q h1
    · rw [List.mem_singleton] at h1
      subst h1
      exact hrow

/-- The registry/store consistency is preserved by the flush loop under
every failure schedule. -/
theorem flushLoop_TxInv (now : Nat) (fp : Option FailPoint) (recs : List BMS)
    (i : Nat) (songs : List (String × String)) (txdb : DB) (nid : Nat)
    (h : TxInv songs txdb) :
    TxInv (flushLoop now fp recs i songs txdb nid).songs
      (flushLoop now fp recs i songs txdb nid).txdb := by
  induction recs generalizing i songs txdb nid with
  | nil => exact h
  | cons bms rest ih =>
    cases hdir : mlookup songs (dirOf bms.path) with
    | some sid =>
      rw [flushLoop_cons]
      simp only [hdir]
      by_cases hf : fp = some (FailPoint.execUpsert i)
      · rw [if_pos hf]
        exact h
      · rw [if_neg hf]
        exact ih (i + 1) songs _ nid
          ⟨h.1, h.2.1,
           upsertPatternRow_keyinv songs now (mkRow bms sid) txdb.patterns hdir h.2.2⟩
    | none =>
      rw [flushLoop_cons]
      simp only [hdir]
      have hnew : TxInv ((dirOf bms.path, genId nid) :: songs)
          { txdb with songs := txdb.songs ++ [⟨genId nid, dirOf bms.path⟩] } := by
        refine ⟨?_, ?_, ?_⟩
        · intro row hr
          rcases List.mem_append.mp hr with hA | hB
          · exact mlookup_insert_stable songs _ _ _ _ hdir (h.1 row hA)
          · rw [List.mem_singleton] at hB
            subst hB
            exact mlookup_insert_self songs _ _
        · show ((txdb.songs ++ [(⟨genId nid, dirOf bms.path⟩ : SongRow)]).map SongRow.path).Nodup
          rw [List.map_append, List.nodup_append]
          refine ⟨h.2.1, by simp, ?_⟩
          intro x hx hx2
          simp only [List.map_cons, List.map_nil, List.mem_singleton] at hx2
          subst hx2
          obtain ⟨row, hrow, hpath⟩ := List.mem_map.mp hx
          have h5 := h.1 row hrow
          rw [hpath, hdir] at h5
          exact absurd h5 (by simp)
        · intro row hr
          exact mlookup_insert_stable songs _ _ _ _ hdir (h.2.2 row hr)
      by_cases h1 : fp = some (FailPoint.prepareInsert i)
      · rw [if_pos h1]; exact h
      rw [if_neg h1]
      by_cases h2 : fp = some (FailPoint.genUUID i)
      · rw [if_pos h2]; exact h
      rw [if_neg h2]
      by_cases h3 : fp = some (FailPoint.execInsert i)
      · rw [if_pos h3]; exact h
      rw [if_neg h3]
      by_cases h4 : fp = some (FailPoint.execUpsert i)
      · rw [if_pos h4]
        exact hnew
      · rw [if_neg h4]
        exact ih (i + 1) _ _ (nid + 1)
          ⟨hnew.1, hnew.2.1,
           upsertPatternRow_keyinv _ now (mkRow bms (genId nid)) txdb.patterns
             (mlookup_insert_self songs _ _) hnew.2.2⟩

/-- The registry/store consistency is preserved by a flush, successful
or failed. -/
theorem upsertPattern_InvA (now : Nat) (s : CLIState) (fp : Option FailPoint)
    (h : InvA s) : InvA (upsertPattern now s fp).1 := by
  rw [upsertPattern]
  by_cases hb : fp = some FailPoint.beginTx
  · rw [if_pos hb]; exact h
  rw [if_neg hb]
  by_cases hp : fp = some FailPoint.prepareUpsert
  · rw [if_pos hp]; exact h
  rw [if_neg hp]
  have hl := flushLoop_TxInv now fp s.bmsList 0 s.songs s.db s.nextId h
  have hm : ∀ k v, mlookup s.songs k = some v →
      mlookup (flushLoop now fp s.bmsList 0 s.songs s.db s.nextId).songs k = some v :=
    fun k v hk => flushLoop_mlookup_mono now fp s.bmsList 0 s.songs s.db s.nextId k v hk
  by_cases hf : (flushLoop now fp s.bmsList 0 s.songs s.db s.nextId).failed = true
  · rw [if_pos hf]
    exact ⟨fun row hr => hm _ _ (h.1 row hr), h.2.1, fun row hr => hm _ _ (h.2.2 row hr)⟩
  · rw [if_neg hf]
    by_cases hc : fp = some FailPoint.commitTx
    · rw [if_pos hc]
      exact ⟨fun row hr => hm _ _ (h.1 row hr), h.2.1,
             fun row hr => hm _ _ (h.2.2 row hr)⟩
    · rw [if_neg hc]
      exact hl

theorem applyOp_InvA (s : CLIState) (op : Op) (h : InvA s) : InvA (applyOp s op) := by
  cases op with
  | append b => exact h
  | flushOp fp => exact upsertPattern_InvA 0 s fp h

theorem runOps_InvA (init : CLIState) (ops : List Op) (h : InvA init) :
    InvA (runOps init ops) := by
  induction ops generalizing init with
  | nil => exact h
  | cons op rest ih => exact ih (applyOp init op) (applyOp_InvA init op h)

/-- Claim C2: under every interleaving of buffer appends and
(serialized) flushes, with any failure schedule, a directory path ends
up with at most one committed Song row, and all committed Pattern rows
from the same directory carry the same song id. -/
theorem claim2_at_most_one_song (init : CLIState) (hinit : InvA init) (ops : List Op) :
    (((runOps init ops).db.songs.map SongRow.path).Nodup) ∧
    (∀ r1 ∈ (runOps init ops).db.patterns, ∀ r2 ∈ (runOps init ops).db.patterns,
      dirOf r1.path = dirOf r2.path → r1.songId = r2.songId) := by
  have h := runOps_InvA init ops hinit
  refine ⟨h.2.1, ?_⟩
  intro r1 h1 r2 h2 hdir
  have e1 := h.2.2 r1 h1
  have e2 := h.2.2 r2 h2
  rw [hdir] at e1
  rw [e1] at e2
  exact (Option.some.injEq _ _).mp e2

/-- Closed instance of claim C2: two files of the same unseen directory
appended concurrently and flushed once yield a store with distinct song
paths and a single id for the shared directory. -/
theorem claim2_witness :
    (((runOps init0 [Op.append ⟨"d/x", "h1", "", "", "", ""⟩,
        Op.append ⟨"d/y", "h2", "", "", "", ""⟩,
        Op.flushOp none]).db.songs.map SongRow.path).Nodup) ∧
    (∀ r1 ∈ (runOps init0 [Op.append ⟨"d/x", "h1", "", "", "", ""⟩,
        Op.append ⟨"d/y", "h2", "", "", "", ""⟩,
        Op.flushOp none]).db.patterns,
      ∀ r2 ∈ (runOps init0 [Op.append ⟨"d/x", "h1", "", "", "", ""⟩,
        Op.append ⟨"d/y", "h2", "", "", "", ""⟩,
        Op.flushOp none]).db.patterns,
      dirOf r1.path = dirOf r2.path → r1.songId = r2.songId) := by
  have hinit : InvA init0 := by
    refine ⟨?_, ?_, ?_⟩ <;> simp [init0]
  exact claim2_at_most_one_song init0 hinit _

/-! ### Claim C3: in-memory registry versus committed rows -/

/-- With no failure injected, the flush loop never reports a failed
statement. -/
theorem flushLoop_none_not_failed (now : Nat) (recs : List BMS) (i : Nat)
    (songs : List (String × String)) (txdb : DB) (nid : Nat) :
    (flushLoop now none recs i songs txdb nid).failed = false := by
  induction recs generalizing i songs txdb nid with
  | nil => rfl
  | cons bms rest ih =>
    cases hdir : mlookup songs (dirOf bms.path) with
    | some sid =>
      rw [flushLoop_cons]
      simp only [hdir]
      rw [if_neg (by simp)]
      exact ih (i + 1) songs _ nid
    | none =>
      rw [flushLoop_cons]
      simp only [hdir]
      rw [if_neg (by simp), if_neg (by simp), if_neg (by simp), if_neg (by simp)]
      exact ih (i + 1) _ _ (nid + 1)

/-- In a failure-free flush, every registry entry stays backed by a song
row of the transaction-local table. -/
theorem flushLoop_none_backed (now : Nat) (recs : List BMS) (i : Nat)
    (songs : List (String × String)) (txdb : DB) (nid : Nat)
    (hmap : ∀ p id, mlookup songs p = some id →
      ∃ row ∈ txdb.songs, row.id = id ∧ row.path = p) :
    ∀ p id, mlookup (flushLoop now none recs i songs txdb nid).songs p = some id →
      ∃ row ∈ (flushLoop now none recs i songs txdb nid).txdb.songs,
        row.id = id ∧ row.path = p := by
  induction recs generalizing i songs txdb nid with
  | nil => exact hmap
  | cons bms rest ih =>
    cases hdir : mlookup songs (dirOf bms.path) with
    | some sid =>
      rw [flushLoop_cons]
      simp only [hdir]
      rw [if_neg (by simp)]
      exact ih (i + 1) songs _ nid hmap
    | none =>
      rw [flushLoop_cons]
      simp only [hdir]
      rw [if_neg (by simp), if_neg (by simp), if_neg (by simp), if_neg (by simp)]
      apply ih (i + 1) _ _ (nid + 1)
      intro p id hp
      rw [mlookup] at hp
      by_cases hdp : dirOf bms.path = p
      · rw [if_pos hdp] at hp
        refine ⟨⟨genId nid, dirOf bms.path⟩, List.mem_append_right _ (by simp), ?_, ?_⟩
        · simpa using hp
        · exact hdp
      · rw [if_neg hdp] at hp
        obtain ⟨row, hr, hrid, hrp⟩ := hmap p id hp
        exact ⟨row, List.mem_append_left _ hr, hrid, hrp⟩

/-- A failure-free flush preserves the strengthened invariant. -/
theorem upsertPattern_none_InvB (now : Nat) (s : CLIState) (h : InvB s) :
    InvB (upsertPattern now s none).1 := by
  refine ⟨upsertPattern_InvA now s none h.1, ?_⟩
  rw [upsertPattern]
  rw [if_neg (by simp), if_neg (by simp)]
  rw [if_neg (by rw [flushLoop_none_not_failed]; simp), if_neg (by simp)]
  exact flushLoop_none_backed now s.bmsList 0 s.songs s.db s.nextId h.2

theorem applyOp_failFree_InvB (s : CLIState) (op : Op) (hop : failFree op)
    (h : InvB s) : InvB (applyOp s op) := by
  cases op with
  | append b => exact h
  | flushOp fp =>
    have : fp = none := hop
    subst this
    exact upsertPattern_none_InvB 0 s h

theorem runOps_failFree_InvB (init : CLIState) (ops : List Op)
    (hf : ∀ op ∈ ops, failFree op) (h : InvB init) : InvB (runOps init ops) := by
  induction ops generalizing init with
  | nil => exact h
  | cons op rest ih =>
    exact ih (applyOp init op)
      (fun x hx => hf x (List.mem_cons_of_mem op hx))
      (applyOp_failFree_InvB init op (hf op (List.mem_cons_self op rest)) h)

/-- Counterexample to claim C3 as stated: a flush that fails while
executing the pattern statement leaves the new song id in the in-memory
map but rolls the song row back; the next flush then resolves the same
directory from memory, skips the insert, and commits a Pattern row whose
song id matches no committed Song row. -/
theorem claim3_cex :
    (mlookup (runOps init0 [Op.append ⟨"d/f", "h1", "", "", "", ""⟩,
        Op.flushOp (some (FailPoint.execUpsert 0)), Op.flushOp none]).songs "d").isSome
      = true ∧
    ∃ prow ∈ (runOps init0 [Op.append ⟨"d/f", "h1", "", "", "", ""⟩,
        Op.flushOp (some (FailPoint.execUpsert 0)), Op.flushOp none]).db.patterns,
      ∀ srow ∈ (runOps init0 [Op.append ⟨"d/f", "h1", "", "", "", ""⟩,
        Op.flushOp (some (FailPoint.execUpsert 0)), Op.flushOp none]).db.songs,
        srow.id ≠ prow.songId := by
  decide

/-- Claim C3 as amended: in every run in which all executed flushes
succeed, at every point of the run each in-memory registry entry is
backed by a committed Song row, and every committed Pattern row
references a committed Song. -/
theorem claim3_registry_store_agreement (init : CLIState) (hinit : InvB init)
    (ops : List Op) (hf : ∀ op ∈ ops, failFree op) (n : Nat) :
    (∀ p id, mlookup (runOps init (ops.take n)).songs p = some id →
      ∃ row ∈ (runOps init (ops.take n)).db.songs, row.id = id ∧ row.path = p) ∧
    (∀ prow ∈ (runOps init (ops.take n)).db.patterns,
      ∃ srow ∈ (runOps init (ops.take n)).db.songs, srow.id = prow.songId) := by
  have hft : ∀ op ∈ ops.take n, failFree op :=
    fun op hop => hf op ((List.take_sublist n ops).subset hop)
  have h := runOps_failFree_InvB init (ops.take n) hft hinit
  refine ⟨h.2, ?_⟩
  intro prow hp
  have e := h.1.2.2 prow hp
  obtain ⟨row, hr, hrid, _⟩ := h.2 (dirOf prow.path) prow.songId e
  exact ⟨row, hr, hrid⟩

/-- Closed instance of the amended claim C3. -/
theorem claim3_witness :
    (∀ p id, mlookup (runOps init0 ([Op.append ⟨"d/f", "h1", "", "", "", ""⟩,
        Op.flushOp none].take 2)).songs p = some id →
      ∃ row ∈ (runOps init0 ([Op.append ⟨"d/f", "h1", "", "", "", ""⟩,
        Op.flushOp none].take 2)).db.songs, row.id = id ∧ row.path = p) ∧
    (∀ prow ∈ (runOps init0 ([Op.append ⟨"d/f", "h1", "", "", "", ""⟩,
        Op.flushOp none].take 2)).db.patterns,
      ∃ srow ∈ (runOps init0 ([Op.append ⟨"d/f", "h1", "", "", "", ""⟩,
        Op.flushOp none].take 2)).db.songs, srow.id = prow.songId) := by
  have hinit : InvB init0 := by
    refine ⟨⟨?_, ?_, ?_⟩, ?_⟩ <;> simp [init0, mlookup]
  apply claim3_registry_store_agreement init0 hinit
  intro op hop
  simp only [List.mem_cons, List.not_mem_nil, or_false] at hop
  rcases hop with rfl | rfl
  · trivial
  · rfl

/-! ### Claim C1: the trailing partial batch is never flushed -/

theorem any_hash_false (r : PatternRow) (rows : List PatternRow)
    (h : r.hash ∉ rows.map PatternRow.hash) :
    (rows.any fun q => q.hash == r.hash) = false := by
  cases hA : rows.any fun q => q.hash == r.hash with
  | false => rfl
  | true =>
    obtain ⟨q, hq, hqe⟩ := List.any_eq_true.mp hA
    have hqr : q.hash = r.hash := by simpa using hqe
    apply absurd ?_ h
    rw [← hqr]
    exact List.mem_map_of_mem PatternRow.hash hq

/-- Upserting a record whose hash is not in the table appends its row. -/
theorem upsert_fresh (now : Nat) (r : PatternRow) (rows : List PatternRow)
    (h : r.hash ∉ rows.map PatternRow.hash) :
    upsertPatternRow now r rows
      = rows ++ [{ r with createdAt := now, updatedAt := now }] := by
  rw [upsertPatternRow, if_neg (bool_false_not_true (any_hash_false r rows h))]

/-- A failure-free flush of records with fresh, pairwise-distinct hashes
appends exactly their rows to the patterns table. -/
theorem flushLoop_none_hashes (now : Nat) (recs : List BMS) (i : Nat)
    (songs : List (String × String)) (txdb : DB) (nid : Nat)
    (h : (txdb.patterns.map PatternRow.hash ++ recs.map BMS.hash).Nodup) :
    (flushLoop now none recs i songs txdb nid).txdb.patterns.map PatternRow.hash
      = txdb.patterns.map PatternRow.hash ++ recs.map BMS.hash := by
  induction recs generalizing i songs txdb nid with
  | nil =>
    show List.map PatternRow.hash txdb.patterns
      = List.map PatternRow.hash txdb.patterns ++ List.map BMS.hash []
    simp
  | cons bms rest ih =>
    rw [List.map_cons] at h
    have hmem : bms.hash ∉ txdb.patterns.map PatternRow.hash := by
      intro hin
      exact (List.nodup_append.mp h).2.2 hin (List.mem_cons_self _ _)
    cases hdir : mlookup songs (dirOf bms.path) with
    | some sid =>
      rw [flushLoop_cons]
      simp only [hdir]
      rw [if_neg (by simp)]
      have hfresh : upsertPatternRow now (mkRow bms sid) txdb.patterns
          = txdb.patterns ++ [{ mkRow bms sid with createdAt := now, updatedAt := now }] :=
        upsert_fresh now (mkRow bms sid) txdb.patterns hmem
      have h2 : ((upsertPatternRow now (mkRow bms sid) txdb.patterns).map PatternRow.hash
          ++ rest.map BMS.hash).Nodup := by
        rw [hfresh, List.map_append, List.append_assoc]
        simpa [mkRow] using h
      rw [ih (i + 1) songs _ nid h2]
      show (upsertPatternRow now (mkRow bms sid) txdb.patterns).map PatternRow.hash
          ++ rest.map BMS.hash
        = txdb.patterns.map PatternRow.hash ++ bms.hash :: rest.map BMS.hash
      rw [hfresh, List.map_append, List.append_assoc]
      simp [mkRow]
    | none =>
      rw [flushLoop_cons]
      simp only [hdir]
      rw [if_neg (by simp), if_neg (by simp), if_neg (by simp), if_neg (by simp)]
      have hfresh : upsertPatternRow now (mkRow bms (genId nid)) txdb.patterns
          = txdb.patterns
            ++ [{ mkRow bms (genId nid) with createdAt := now, updatedAt := now }] :=
        upsert_fresh now (mkRow bms (genId nid)) txdb.patterns hmem
      have h2 : ((upsertPatternRow now (mkRow bms (genId nid)) txdb.patterns).map PatternRow.hash
          ++ rest.map BMS.hash).Nodup := by
        rw [hfresh, List.map_append, List.append_assoc]
        simpa [mkRow] using h
      rw [ih (i + 1) _ _ (nid + 1) h2]
      show (upsertPatternRow now (mkRow bms (genId nid)) txdb.patterns).map PatternRow.hash
          ++ rest.map BMS.hash
        = txdb.patterns.map PatternRow.hash ++ bms.hash :: rest.map BMS.hash
      rw [hfresh, List.map_append, List.append_assoc]
      simp [mkRow]

/-- A failure-free flush commits exactly the buffered rows and resets
the buffer. -/
theorem upsertPattern_none_spec (now : Nat) (s : CLIState)
    (h : (s.db.patterns.map PatternRow.hash ++ s.bmsList.map BMS.hash).Nodup) :
    (upsertPattern now s none).1.db.patterns.map PatternRow.hash
      = s.db.patterns.map PatternRow.hash ++ s.bmsList.map BMS.hash ∧
    (upsertPattern now s none).1.bmsList = [] := by
  rw [upsertPattern]
  rw [if_neg (by simp), if_neg (by simp)]
  rw [if_neg (by rw [flushLoop_none_not_failed]; simp), if_neg (by simp)]
  exact ⟨flushLoop_none_hashes now s.bmsList 0 s.songs s.db s.nextId h, rfl⟩

theorem runPipeline_cons (s : CLIState) (f : BMS) (rest : List BMS) :
    runPipeline s (f :: rest) = runPipeline (upsertPatterns s f) rest := rfl

/-- Row accounting for CLI.Run: records enter the buffer one at a time
and are committed in full batches of `upsertBatch`; the run ends with
`n % upsertBatch` records still in the buffer, never committed. -/
theorem runPipeline_count (files : List BMS) (s : CLIState)
    (h : (s.db.patterns.map PatternRow.hash ++ s.bmsList.map BMS.hash
          ++ files.map BMS.hash).Nodup)
    (hb : s.bmsList.length < upsertBatch) :
    (runPipeline s files).db.patterns.length + (runPipeline s files).bmsList.length
        = s.db.patterns.length + s.bmsList.length + files.length ∧
    (runPipeline s files).bmsList.length
        = (s.bmsList.length + files.length) % upsertBatch := by
  induction files generalizing s with
  | nil =>
    refine ⟨rfl, ?_⟩
    show s.bmsList.length = (s.bmsList.length + 0) % upsertBatch
    rw [Nat.add_zero, Nat.mod_eq_of_lt hb]
  | cons f rest ih =>
    rw [runPipeline_cons]
    by_cases hlt : (s.bmsList ++ [f]).length < upsertBatch
    · have hs1 : upsertPatterns s f = { s with bmsList := s.bmsList ++ [f] } := by
        rw [upsertPatterns, if_pos hlt]
      rw [hs1]
      have hnd : (({ s with bmsList := s.bmsList ++ [f] } : CLIState).db.patterns.map
            PatternRow.hash
          ++ ({ s with bmsList := s.bmsList ++ [f] } : CLIState).bmsList.map BMS.hash
          ++ rest.map BMS.hash).Nodup := by
        show (s.db.patterns.map PatternRow.hash ++ (s.bmsList ++ [f]).map BMS.hash
            ++ rest.map BMS.hash).Nodup
        rw [List.map_append]
        simpa [List.append_assoc] using h
      have e := ih { s with bmsList := s.bmsList ++ [f] } hnd hlt
      refine ⟨?_, ?_⟩
      · rw [e.1]
        show s.db.patterns.length + (s.bmsList ++ [f]).length + rest.length
            = s.db.patterns.length + s.bmsList.length + (rest.length + 1)
        rw [List.length_append, List.length_singleton]
        omega
      · rw [e.2]
        show ((s.bmsList ++ [f]).length + rest.length) % upsertBatch
            = (s.bmsList.length + (rest.length + 1)) % upsertBatch
        rw [List.length_append, List.length_singleton]
        congr 1
        omega
    · have hs1 : upsertPatterns s f
          = (upsertPattern 0 { s with bmsList := s.bmsList ++ [f] } none).1 := by
        rw [upsertPatterns, if_neg hlt]
      rw [hs1]
      have hnd1 : (({ s with bmsList := s.bmsList ++ [f] } : CLIState).db.patterns.map
            PatternRow.hash
          ++ ({ s with bmsList := s.bmsList ++ [f] } : CLIState).bmsList.map BMS.hash).Nodup := by
        show (s.db.patterns.map PatternRow.hash ++ (s.bmsList ++ [f]).map BMS.hash).Nodup
        rw [List.map_append]
        have hsub : List.Sublist
            (s.db.patterns.map PatternRow.hash
              ++ (s.bmsList.map BMS.hash ++ [f].map BMS.hash))
            (s.db.patterns.map PatternRow.hash ++ s.bmsList.map BMS.hash
              ++ (f :: rest).map BMS.hash) := by
          rw [List.append_assoc]
          apply List.Sublist.append_left
          apply List.Sublist.append_left
          simp only [List.map_cons, List.map_nil]
          exact (List.nil_sublist (rest.map BMS.hash)).cons₂ f.hash
        exact List.Nodup.sublist hsub h
      have hspec := upsertPattern_none_spec 0 { s with bmsList := s.bmsList ++ [f] } hnd1
      have hplen : (upsertPattern 0 { s with bmsList := s.bmsList ++ [f] }
            none).1.db.patterns.length
          = s.db.patterns.length + (s.bmsList.length + 1) := by
        have h3 := congrArg List.length hspec.1
        rw [List.length_map, List.length_append, List.length_map, List.length_map,
            List.length_append, List.length_singleton] at h3
        exact h3
      have hnd2 : ((upsertPattern 0 { s with bmsList := s.bmsList ++ [f] }
            none).1.db.patterns.map PatternRow.hash
          ++ (upsertPattern 0 { s with bmsList := s.bmsList ++ [f] }
            none).1.bmsList.map BMS.hash
          ++ rest.map BMS.hash).Nodup := by
        rw [hspec.2, hspec.1]
        show ((s.db.patterns.map PatternRow.hash
            ++ ({ s with bmsList := s.bmsList ++ [f] } : CLIState).bmsList.map BMS.hash)
            ++ ([] : List BMS).map BMS.hash ++ rest.map BMS.hash).Nodup
        show ((s.db.patterns.map PatternRow.hash ++ (s.bmsList ++ [f]).map BMS.hash)
            ++ ([] : List BMS).map BMS.hash ++ rest.map BMS.hash).Nodup
        rw [List.map_append]
        simpa [List.append_assoc] using h
      have hb2 : (upsertPattern 0 { s with bmsList := s.bmsList ++ [f] }
            none).1.bmsList.length < upsertBatch := by
        rw [hspec.2]
        simp [upsertBatch]
      have e := ih (upsertPattern 0 { s with bmsList := s.bmsList ++ [f] } none).1 hnd2 hb2
      have hb1000 : s.bmsList.length + 1 = upsertBatch := by
        rw [List.length_append, List.length_singleton] at hlt
        omega
      refine ⟨?_, ?_⟩
      · have e1 := e.1
        rw [hplen, hspec.2] at e1
        simp only [List.length_nil] at e1
        show _ = s.db.patterns.length + s.bmsList.length + (rest.length + 1)
        omega
      · have e2 := e.2
        rw [hspec.2] at e2
        simp only [List.length_nil] at e2
        rw [e2]
        show (0 + rest.length) % upsertBatch
            = (s.bmsList.length + (rest.length + 1)) % upsertBatch
        simp only [upsertBatch] at hb1000 ⊢
        omega

/-- Claim C1, refuted by the code (code bug): with `upsertBatch = 1000`
and 2500 successfully parsed files with distinct hashes, CLI.Run commits
only 2000 Pattern rows; the trailing 500 records are still sitting in
the shared buffer when the run ends, because Run never flushes a partial
batch after the walk. The claim (and the spec) require 2500 committed
rows. -/
theorem claim1_trailing_batch_dropped :
    (runPipeline init0 (cFiles 2500)).db.patterns.length = 2000 ∧
    (runPipeline init0 (cFiles 2500)).bmsList.length = 500 := by
  have hinj : Function.Injective (fun i => (mkFile i).hash) := by
    intro i j hij
    have h1 : List.replicate i 'h' = List.replicate j 'h' := by
      have h2 := congrArg String.data hij
      simpa [mkFile] using h2
    have h3 := congrArg List.length h1
    simpa using h3
  have hnd : ((cFiles 2500).map BMS.hash).Nodup := by
    rw [cFiles, List.map_map]
    exact List.Nodup.map hinj (List.nodup_range 2500)
  have hlen : (cFiles 2500).length = 2500 := by
    rw [cFiles, List.length_map, List.length_range]
  obtain ⟨h1, h2⟩ := runPipeline_count (cFiles 2500) init0
    (by simpa [init0] using hnd) (by simp [init0, upsertBatch])
  have e1 : init0.db.patterns.length = 0 := rfl
  have e2 : init0.bmsList.length = 0 := rfl
  rw [e1, e2, hlen] at h1
  rw [e2, hlen] at h2
  have e3 : (0 + 2500) % upsertBatch = 500 := by decide
  rw [e3] at h2
  exact ⟨by omega, h2⟩

/-! ### Claim C6: metadata extraction -/

theorem scanLines_cons (f : Fields) (l : List Char) (ls : List (List Char)) :
    scanLines f (l :: ls) = if bufferSize < l.length then Except.error ()
      else if allFilled f then Except.ok f
      else scanLines (processLine f l) ls := rfl

theorem fv_cons_some (pat l : List Char) (ls : List (List Char)) (v : List Char)
    (h : matchHeader pat l = some v) :
    fv pat (l :: ls) = if v.isEmpty then fv pat ls else v := by
  simp only [fv, h]

theorem fv_cons_none (pat l : List Char) (ls : List (List Char))
    (h : matchHeader pat l = none) :
    fv pat (l :: ls) = fv pat ls := by
  simp only [fv, h]

theorem matchHeader_none (q l : List Char) (h : prefixCI q l = false) :
    matchHeader q l = none := by
  rw [matchHeader, if_neg (bool_false_not_true h)]

theorem matchHeader_some_prefixCI (p l v : List Char) (h : matchHeader p l = some v) :
    prefixCI p l = true := by
  cases hp : prefixCI p l with
  | true => rfl
  | false =>
    rw [matchHeader, if_neg (bool_false_not_true hp)] at h
    exact Option.noConfusion h

theorem prefixCI_length (p l : List Char) (h : prefixCI p l = true) :
    p.length ≤ l.length := by
  induction p generalizing l with
  | nil => simp
  | cons c cs ih =>
    cases l with
    | nil => simp [prefixCI] at h
    | cons d ds =>
      rw [prefixCI, Bool.and_eq_true] at h
      simpa using ih ds h.2

theorem prefixCI_get (p l : List Char) (h : prefixCI p l = true) (i : Nat)
    (hip : i < p.length) (hil : i < l.length) :
    charCI (p.get ⟨i, hip⟩) (l.get ⟨i, hil⟩) = true := by
  induction p generalizing l i with
  | nil => simp at hip
  | cons c cs ih =>
    cases l with
    | nil => simp [prefixCI] at h
    | cons d ds =>
      rw [prefixCI, Bool.and_eq_true] at h
      cases i with
      | zero => exact h.1
      | succ j => exact ih ds h.2 j (by simpa using hip) (by simpa using hil)

/-- Two case-insensitive anchored patterns differing at some position
cannot both match the same line. -/
theorem prefixCI_disj (p q l : List Char) (i : Nat) (hip : i < p.length)
    (hiq : i < q.length)
    (hne : (p.get ⟨i, hip⟩).toLower ≠ (q.get ⟨i, hiq⟩).toLower)
    (hp : prefixCI p l = true) (hq : prefixCI q l = true) : False := by
  have hil : i < l.length := lt_of_lt_of_le hip (prefixCI_length p l hp)
  have h1 := prefixCI_get p l hp i hip hil
  have h2 := prefixCI_get q l hq i hiq hil
  rw [charCI, beq_iff_eq] at h1 h2
  exact hne (h1.trans h2.symm)

theorem prefixCI_false_of_disj (p q l : List Char) (i : Nat) (hip : i < p.length)
    (hiq : i < q.length)
    (hne : (p.get ⟨i, hip⟩).toLower ≠ (q.get ⟨i, hiq⟩).toLower)
    (hp : prefixCI p l = true) : prefixCI q l = false := by
  cases hq : prefixCI q l with
  | false => rfl
  | true => exact (prefixCI_disj p q l i hip hiq hne hp hq).elim

theorem title_excl (l : List Char) (h : prefixCI titlePat l = true) :
    prefixCI subtitlePat l = false ∧ prefixCI artistPat l = false ∧
      prefixCI subartistPat l = false :=
  ⟨prefixCI_false_of_disj titlePat subtitlePat l 1 (by decide) (by decide) (by decide) h,
   prefixCI_false_of_disj titlePat artistPat l 1 (by decide) (by decide) (by decide) h,
   prefixCI_false_of_disj titlePat subartistPat l 1 (by decide) (by decide) (by decide) h⟩

theorem subtitle_excl (l : List Char) (h : prefixCI subtitlePat l = true) :
    prefixCI artistPat l = false ∧ prefixCI subartistPat l = false :=
  ⟨prefixCI_false_of_disj subtitlePat artistPat l 1 (by decide) (by decide) (by decide) h,
   prefixCI_false_of_disj subtitlePat subartistPat l 4 (by decide) (by decide) (by decide) h⟩

theorem artist_excl (l : List Char) (h : prefixCI artistPat l = true) :
    prefixCI subartistPat l = false :=
  prefixCI_false_of_disj artistPat subartistPat l 1 (by decide) (by decide) (by decide) h

/-- The field update of the scan loop: setting a field only when it is
still empty realizes first-non-empty-capture semantics. -/
theorem set_if_empty (cur v tailv : List Char) :
    (if (if cur.isEmpty then v else cur).isEmpty then tailv
     else (if cur.isEmpty then v else cur))
      = if cur.isEmpty then (if v.isEmpty then tailv else v) else cur := by
  cases hc : cur.isEmpty with
  | true => rfl
  | false =>
    show (if cur.isEmpty then tailv else cur) = cur
    rw [hc]
    rfl

/-- The scan loop computes, for each field, the first non-empty capture
of the corresponding pattern (unless the field was already set), and the
early break once all four fields are non-empty does not change the
result. -/
theorem scanLines_fv (lines : List (List Char)) (f : Fields)
    (hfit : ∀ l ∈ lines, l.length ≤ bufferSize) :
    scanLines f lines = Except.ok
      ⟨if f.title.isEmpty then fv titlePat lines else f.title,
       if f.subtitle.isEmpty then fv subtitlePat lines else f.subtitle,
       if f.artist.isEmpty then fv artistPat lines else f.artist,
       if f.subartist.isEmpty then fv subartistPat lines else f.subartist⟩ := by
  induction lines generalizing f with
  | nil =>
    have hfield : ∀ x : List Char, (if x.isEmpty then ([] : List Char) else x) = x := by
      intro x
      cases x with
      | nil => rfl
      | cons a t => rfl
    simp only [fv, hfield]
    rfl
  | cons l ls ih =>
    have hfl : ¬ bufferSize < l.length := by
      have h1 := hfit l (List.mem_cons_self l ls)
      omega
    have hft : ∀ x ∈ ls, x.length ≤ bufferSize :=
      fun x hx => hfit x (List.mem_cons_of_mem l hx)
    rw [scanLines_cons, if_neg hfl]
    by_cases ha : allFilled f = true
    · rw [if_pos ha]
      have h4 := ha
      rw [allFilled, Bool.and_eq_true, Bool.and_eq_true, Bool.and_eq_true] at h4
      obtain ⟨⟨⟨hA, hSA⟩, hT⟩, hST⟩ := h4
      rw [Bool.not_eq_true'] at hA hSA hT hST
      rw [hT, hST, hA, hSA]
      rfl
    · rw [if_neg ha, ih (processLine f l) hft]
      cases hm1 : matchHeader titlePat l with
      | some v =>
        have hex := title_excl l (matchHeader_some_prefixCI titlePat l v hm1)
        have hm2 := matchHeader_none subtitlePat l hex.1
        have hm3 := matchHeader_none artistPat l hex.2.1
        have hm4 := matchHeader_none subartistPat l hex.2.2
        have hpl : processLine f l
            = if f.title.isEmpty then { f with title := v } else f := by
          simp only [processLine, hm1]
        rw [hpl, fv_cons_some titlePat l ls v hm1, fv_cons_none subtitlePat l ls hm2,
            fv_cons_none artistPat l ls hm3, fv_cons_none subartistPat l ls hm4]
        simp only [Except.ok.injEq, Fields.mk.injEq]
        refine ⟨?_, ?_, ?_, ?_⟩
        · simp only [apply_ite Fields.title]
          exact set_if_empty f.title v (fv titlePat ls)
        · simp only [apply_ite Fields.subtitle, ite_self]
        · simp only [apply_ite Fields.artist, ite_self]
        · simp only [apply_ite Fields.subartist, ite_self]
      | none =>
        cases hm2 : matchHeader subtitlePat l with
        | some v =>
          have hex := subtitle_excl l (matchHeader_some_prefixCI subtitlePat l v hm2)
          have hm3 := matchHeader_none artistPat l hex.1
          have hm4 := matchHeader_none subartistPat l hex.2
          have hpl : processLine f l
              = if f.subtitle.isEmpty then { f with subtitle := v } else f := by
            simp only [processLine, hm1, hm2]
          rw [hpl, fv_cons_none titlePat l ls hm1, fv_cons_some subtitlePat l ls v hm2,
              fv_cons_none artistPat l ls hm3, fv_cons_none subartistPat l ls hm4]
          simp only [Except.ok.injEq, Fields.mk.injEq]
          refine ⟨?_, ?_, ?_, ?_⟩
          · simp only [apply_ite Fields.title, ite_self]
          · simp only [apply_ite Fields.subtitle]
            exact set_if_empty f.subtitle v (fv subtitlePat ls)
          · simp only [apply_ite Fields.artist, ite_self]
          · simp only [apply_ite Fields.subartist, ite_self]
        | none =>
          cases hm3 : matchHeader artistPat l with
          | some v =>
            have hm4 := matchHeader_none subartistPat l
              (artist_excl l (matchHeader_some_prefixCI artistPat l v hm3))
            have hpl : processLine f l
                = if f.artist.isEmpty then { f with artist := v } else f := by
              simp only [processLine, hm1, hm2, hm3]
            rw [hpl, fv_cons_none titlePat l ls hm1, fv_cons_none subtitlePat l ls hm2,
                fv_cons_some artistPat l ls v hm3, fv_cons_none subartistPat l ls hm4]
            simp only [Except.ok.injEq, Fields.mk.injEq]
            refine ⟨?_, ?_, ?_, ?_⟩
            · simp only [apply_ite Fields.title, ite_self]
            · simp only [apply_ite Fields.subtitle, ite_self]
            · simp only [apply_ite Fields.artist]
              exact set_if_empty f.artist v (fv artistPat ls)
            · simp only [apply_ite Fields.subartist, ite_self]
          | none =>
            cases hm4 : matchHeader subartistPat l with
            | some v =>
              have hpl : processLine f l
                  = if f.subartist.isEmpty then { f with subartist := v } else f := by
                simp only [processLine, hm1, hm2, hm3, hm4]
              rw [hpl, fv_cons_none titlePat l ls hm1, fv_cons_none subtitlePat l ls hm2,
                  fv_cons_none artistPat l ls hm3, fv_cons_some subartistPat l ls v hm4]
              simp only [Except.ok.injEq, Fields.mk.injEq]
              refine ⟨?_, ?_, ?_, ?_⟩
              · simp only [apply_ite Fields.title, ite_self]
              · simp only [apply_ite Fields.subtitle, ite_self]
              · simp only [apply_ite Fields.artist, ite_self]
              · simp only [apply_ite Fields.subartist]
                exact set_if_empty f.subartist v (fv subartistPat ls)
            | none =>
              have hpl : processLine f l = f := by
                simp only [processLine, hm1, hm2, hm3, hm4]
              rw [hpl, fv_cons_none titlePat l ls hm1, fv_cons_none subtitlePat l ls hm2,
                  fv_cons_none artistPat l ls hm3, fv_cons_none subartistPat l ls hm4]

/-- Counterexample to claim C6 as stated: on a file whose first line is
`#title` (capture empty) and whose second line is `#title Foo`, the code
yields title `Foo` — the first match did not win; a later match for a
field that has matched before but is still empty is not ignored. -/
theorem claim6_cex :
    ParseBMS [['#', 't', 'i', 't', 'l', 'e'],
              ['#', 't', 'i', 't', 'l', 'e', ' ', 'F', 'o', 'o']]
      = Except.ok ⟨['F', 'o', 'o'], [], [], []⟩ ∧
    extractFirstMatch [['#', 't', 'i', 't', 'l', 'e'],
              ['#', 't', 'i', 't', 'l', 'e', ' ', 'F', 'o', 'o']]
      = ⟨[], [], [], []⟩ ∧
    ParseBMS [['#', 't', 'i', 't', 'l', 'e'],
              ['#', 't', 'i', 't', 'l', 'e', ' ', 'F', 'o', 'o']]
      ≠ Except.ok (extractFirstMatch [['#', 't', 'i', 't', 'l', 'e'],
              ['#', 't', 'i', 't', 'l', 'e', ' ', 'F', 'o', 'o']]) := by
  have h1 : ParseBMS [['#', 't', 'i', 't', 'l', 'e'],
      ['#', 't', 'i', 't', 'l', 'e', ' ', 'F', 'o', 'o']]
      = Except.ok ⟨['F', 'o', 'o'], [], [], []⟩ := by rfl
  have h2 : extractFirstMatch [['#', 't', 'i', 't', 'l', 'e'],
      ['#', 't', 'i', 't', 'l', 'e', ' ', 'F', 'o', 'o']]
      = ⟨[], [], [], []⟩ := by rfl
  refine ⟨h1, h2, ?_⟩
  rw [h1, h2]
  intro hcontra
  injection hcontra with hf
  have h3 : (['F', 'o', 'o'] : List Char) = [] := congrArg Fields.title hf
  exact List.noConfusion h3

/-- Claim C6 as amended: extraction scans lines left to right against
the four anchored case-insensitive prefixes; for each field the first
match with a NON-EMPTY captured value wins (a match capturing the empty
string leaves the field unfilled, so a later match may still fill it);
matches for an already-non-empty field are ignored; scanning stops early
once all four fields are non-empty, otherwise at end of input, with the
same extracted values either way; non-matching lines are skipped without
error. -/
theorem claim6_first_nonempty_extraction (lines : List (List Char))
    (hfit : ∀ l ∈ lines, l.length ≤ bufferSize) :
    ParseBMS lines = Except.ok
      ⟨fv titlePat lines, fv subtitlePat lines,
       fv artistPat lines, fv subartistPat lines⟩ := by
  have h := scanLines_fv lines emptyFields hfit
  simpa [emptyFields] using h

/-- Closed instance of the amended claim C6, on the spec's own example:
`#TITLE Foo` and `#artist Bar` are extracted case-insensitively, and the
second `#TITLE Baz` is ignored because the field is already non-empty. -/
theorem claim6_witness :
    ParseBMS [['#', 'T', 'I', 'T', 'L', 'E', ' ', 'F', 'o', 'o'],
              ['#', 'a', 'r', 't', 'i', 's', 't', ' ', 'B', 'a', 'r'],
              ['#', 'T', 'I', 'T', 'L', 'E', ' ', 'B', 'a', 'z']]
      = Except.ok ⟨['F', 'o', 'o'], [], ['B', 'a', 'r'], []⟩ := by
  have h := claim6_first_nonempty_extraction
    [['#', 'T', 'I', 'T', 'L', 'E', ' ', 'F', 'o', 'o'],
     ['#', 'a', 'r', 't', 'i', 's', 't', ' ', 'B', 'a', 'r'],
     ['#', 'T', 'I', 'T', 'L', 'E', ' ', 'B', 'a', 'z']] (by decide)
  rw [h]
  rfl
